import Mathlib

/-!
Verification of the caching-and-coordination core of the eatcost API:
the tagged object cache, the word-autocomplete index (both in
src/core/caching/in_redis.py, class AsyncRedisCache) and the distributed
lock (src/core/task_locking/in_redis.py, class DistributedLock).

The Redis store is modelled as a finite map from keys to typed entries
(string / set / sorted set, each with an optional TTL).  Every store
round trip consults a fault schedule (a list of booleans) so that
store-unavailable errors can be injected at any operation; exceptions are
modelled with Except.  The msgpack, zlib and json codecs are external
libraries (their source is not part of this repository) and are modelled
by executable serializers, as noted on their definitions.
-/

namespace EatCost

/-- Model of the Python values the cache stores: JSON- and
msgpack-representable data (None, bool, int, str, list).  Python None is
the constructor null; the cache conflates a decoded None with a miss. -/
inductive Value where
  | null : Value
  | bool (b : Bool) : Value
  | int (n : Int) : Value
  | str (s : String) : Value
  | arr (l : List Value) : Value
  deriving Repr

/-- Whether a value is Python None (the "is not None" test of
get_or_set). -/
def Value.isNull : Value → Bool
  | .null => true
  | _ => false

/-- Byte strings on the wire; a byte is modelled as a Nat. -/
abbrev Bytes := List Nat

mutual
/-- Modelled from the spec: the binary pack codec (external msgpack
library, called by AsyncRedisCache.set with use_bin_type and by
_deserialize_data_async with raw=False).  An executable tag-based
serializer standing in for the external wire format; only its
partial-inverse property matters to the code under verification. -/
def packValue : Value → Bytes
  | .null => [0]
  | .bool b => [1, cond b 1 0]
  | .int n => [2, n.toNat, (-n).toNat]
  | .str s => 3 :: s.length :: s.data.map Char.toNat
  | .arr l => 4 :: l.length :: packList l

/-- Concatenated encodings of a list of values (helper of packValue). -/
def packList : List Value → Bytes
  | [] => []
  | v :: vs => packValue v ++ packList vs
end

/-- Decoder matching packValue: parse exactly n consecutive values from
the byte stream, returning them with the remaining bytes.  The fuel
argument decreases on every recursive step (both entering an array and
moving to the next value), keeping the recursion structural so that the
decoder evaluates by kernel reduction. -/
def parseVals : Nat → Nat → Bytes → Option (List Value × Bytes)
  | _, 0, rest => some ([], rest)
  | 0, _ + 1, _ => none
  | fuel + 1, n + 1, b =>
    let one : Option (Value × Bytes) :=
      match b with
      | 0 :: rest => some (Value.null, rest)
      | 1 :: x :: rest => some (.bool (x == 1), rest)
      | 2 :: p :: m :: rest => some (.int ((p : Int) - (m : Int)), rest)
      | 3 :: len :: rest =>
          if rest.length < len then none
          else some (.str ⟨(rest.take len).map Char.ofNat⟩, rest.drop len)
      | 4 :: len :: rest => (parseVals fuel len rest).map (fun q => (.arr q.1, q.2))
      | _ => none
    one.bind (fun p => (parseVals fuel n p.2).map (fun q => (p.1 :: q.1, q.2)))

mutual
/-- The fuel parseVals needs below one value. -/
def vcost : Value → Nat
  | .arr l => lcost l
  | _ => 0

/-- The fuel parseVals needs for a list of values. -/
def lcost : List Value → Nat
  | [] => 0
  | v :: vs => 1 + max (vcost v) (lcost vs)
end

/-- Full-consume decode: external unpackb and json.loads both reject
trailing garbage, so decoding succeeds only when the whole input is one
value. -/
def unpackValue (w : Bytes) : Option Value :=
  match parseVals (w.length + 1) 1 w with
  | some ([v], []) => some v
  | _ => none

/-- Modelled from the spec: msgpack.packb(values, use_bin_type=True),
external msgpack library. -/
def msgpackPackb (v : Value) : Bytes := packValue v

/-- Modelled from the spec: msgpack.unpackb(data, raw=False), external
msgpack library; none models the unpack exceptions (ExtraData,
FormatError, StackError). -/
def msgpackUnpackb (w : Bytes) : Option Value := unpackValue w

/-- Modelled from the spec: zlib.compress, external zlib library; a
two-byte stream header in front of the payload, so output is never
empty. -/
def zlibCompress (w : Bytes) : Bytes := 120 :: 156 :: w

/-- Modelled from the spec: zlib.decompress, external zlib library; none
models zlib.error on malformed input. -/
def zlibDecompress (w : Bytes) : Option Bytes :=
  match w with
  | 120 :: 156 :: rest => some rest
  | _ => none

/-- Modelled from the spec: json.dumps encoded as UTF-8 bytes, external
json library; the marker byte distinguishes the textual framing from the
binary codec, and output is never empty. -/
def jsonDumps (v : Value) : Bytes := 5 :: packValue v

/-- Modelled from the spec: json.loads, external json library; none
models json.JSONDecodeError on malformed input. -/
def jsonLoads (w : Bytes) : Option Value :=
  match w with
  | 5 :: rest => unpackValue rest
  | _ => none

/-- AsyncRedisCache._deserialize_data_async: zlib-decompress then
msgpack-unpack; any decode failure of either step is absorbed and
reported as a None result, never raised. -/
def deserializeData (w : Bytes) : Option Value :=
  match zlibDecompress w with
  | none => none
  | some p => msgpackUnpackb p

/-! ## The Redis store model -/

/-- A Redis value: plain string (bytes), set of members, or sorted set
(kept as its member list in ascending lexicographic order, all scores
zero). -/
inductive RVal where
  | str (w : Bytes) : RVal
  | sset (ms : List String) : RVal
  | zset (ms : List String) : RVal
  deriving Repr, DecidableEq

/-- A stored entry: value plus remaining TTL in seconds (none = no
expiry). -/
structure Entry where
  val : RVal
  ttl : Option Nat
  deriving Repr, DecidableEq

/-- The key space of one Redis database. -/
abbrev Store := String → Option Entry

/-- Point update of a store. -/
def updS (st : Store) (k : String) (e : Option Entry) : Store :=
  fun k' => if k' = k then e else st k'

/-- A client connection: the store it talks to plus a fault schedule.
Each store round trip pops one boolean; false means the operation raises
RedisError (store unavailable) instead of executing.  An exhausted
schedule means no further faults. -/
structure Client where
  st : Store
  faults : List Bool

/-- Pop the next fault-schedule entry (true = the round trip succeeds). -/
def Client.pop (c : Client) : Bool × Client :=
  match c.faults with
  | [] => (true, c)
  | f :: fs => (f, ⟨c.st, fs⟩)

/-- Number of injected faults remaining in the schedule. -/
def cFalse (c : Client) : Nat := c.faults.count false

/-- Errors are untyped in the model: a RedisError / raised exception. -/
abbrev Res (α : Type) := Except Unit α

/-- Redis GET: bytes of a string key, none if absent, error on fault or
wrong type. -/
def rGet (c : Client) (k : String) : Res (Option Bytes) × Client :=
  let p := c.pop
  if p.1 then
    match p.2.st k with
    | none => (.ok none, p.2)
    | some e =>
      match e.val with
      | .str w => (.ok (some w), p.2)
      | _ => (.error (), p.2)
  else (.error (), p.2)

/-- Redis SETEX: store bytes under a key with a TTL; a non-positive TTL
is an invalid-expire error, faults raise. -/
def rSetex (c : Client) (k : String) (ttl : Nat) (w : Bytes) : Res Unit × Client :=
  let p := c.pop
  if p.1 then
    if ttl = 0 then (.error (), p.2)
    else (.ok (), ⟨updS p.2.st k (some ⟨.str w, some ttl⟩), p.2.faults⟩)
  else (.error (), p.2)

/-- Sequential deletion of a key list, counting the keys that existed. -/
def delKeys : Store → List String → Nat × Store
  | st, [] => (0, st)
  | st, k :: ks =>
    if (st k).isSome then
      let r := delKeys (updS st k none) ks
      (r.1 + 1, r.2)
    else delKeys st ks

/-- Redis DEL of one or more keys in a single round trip. -/
def rDel (c : Client) (ks : List String) : Res Nat × Client :=
  let p := c.pop
  if p.1 then
    let r := delKeys p.2.st ks
    (.ok r.1, ⟨r.2, p.2.faults⟩)
  else (.error (), p.2)

/-- Redis SADD of one member; creates the set (without expiry) on first
use, errors on wrong type or fault. -/
def rSadd (c : Client) (k : String) (m : String) : Res Unit × Client :=
  let p := c.pop
  if p.1 then
    match p.2.st k with
    | none => (.ok (), ⟨updS p.2.st k (some ⟨.sset [m], none⟩), p.2.faults⟩)
    | some e =>
      match e.val with
      | .sset ms =>
        if m ∈ ms then (.ok (), p.2)
        else (.ok (), ⟨updS p.2.st k (some ⟨.sset (ms ++ [m]), e.ttl⟩), p.2.faults⟩)
      | _ => (.error (), p.2)
  else (.error (), p.2)

/-- Redis SMEMBERS; empty for an absent key, error on wrong type or
fault. -/
def rSmembers (c : Client) (k : String) : Res (List String) × Client :=
  let p := c.pop
  if p.1 then
    match p.2.st k with
    | none => (.ok [], p.2)
    | some e =>
      match e.val with
      | .sset ms => (.ok ms, p.2)
      | _ => (.error (), p.2)
  else (.error (), p.2)

/-- Redis EXPIRE: set the remaining TTL of an existing key (a zero TTL
deletes it); false for an absent key. -/
def rExpire (c : Client) (k : String) (ttl : Nat) : Res Bool × Client :=
  let p := c.pop
  if p.1 then
    match p.2.st k with
    | none => (.ok false, p.2)
    | some e =>
      if ttl = 0 then (.ok true, ⟨updS p.2.st k none, p.2.faults⟩)
      else (.ok true, ⟨updS p.2.st k (some ⟨e.val, some ttl⟩), p.2.faults⟩)
  else (.error (), p.2)

/-- Lexicographic strict order on character lists by code point.  For
valid UTF-8 this coincides with the memcmp byte order Redis uses on
sorted-set members (UTF-8 preserves code-point order). -/
def lexLt : List Char → List Char → Bool
  | [], [] => false
  | [], _ :: _ => true
  | _ :: _, [] => false
  | a :: as, b :: bs =>
    if a.toNat < b.toNat then true
    else if b.toNat < a.toNat then false
    else lexLt as bs

/-- Strict member order on strings (Redis byte order). -/
def strLt (a b : String) : Bool := lexLt a.data b.data

/-- Reflexive member order on strings. -/
def strLe (a b : String) : Bool := !(strLt b a)

/-- Insert a member into an ascending member list, skipping duplicates
(sorted sets hold each member once; all scores are zero here). -/
def zinsert (m : String) : List String → List String
  | [] => [m]
  | x :: xs =>
    if strLt m x then m :: x :: xs
    else if m = x then x :: xs
    else x :: zinsert m xs

/-- Insert a batch of members into an ascending member list. -/
def zinsertAll (ms : List String) (old : List String) : List String :=
  ms.foldl (fun acc m => zinsert m acc) old

/-- Redis ZADD of a batch of members with score 0; creates the sorted
set (without expiry) on first use, errors on wrong type or fault. -/
def rZadd (c : Client) (k : String) (ms : List String) : Res Unit × Client :=
  let p := c.pop
  if p.1 then
    match p.2.st k with
    | none => (.ok (), ⟨updS p.2.st k (some ⟨.zset (zinsertAll ms []), none⟩), p.2.faults⟩)
    | some e =>
      match e.val with
      | .zset old => (.ok (), ⟨updS p.2.st k (some ⟨.zset (zinsertAll ms old), e.ttl⟩), p.2.faults⟩)
      | _ => (.error (), p.2)
  else (.error (), p.2)

/-- Redis RENAME: move the source entry (value and TTL) onto the
destination key; error if the source key does not exist, or on fault. -/
def rRename (c : Client) (src dst : String) : Res Unit × Client :=
  let p := c.pop
  if p.1 then
    match p.2.st src with
    | none => (.error (), p.2)
    | some e => (.ok (), ⟨updS (updS p.2.st src none) dst (some e), p.2.faults⟩)
  else (.error (), p.2)

/-- Parse a ZRANGEBYLEX bound of the inclusive form the code always
sends (an opening bracket followed by the bound string); anything else
is a syntax error. -/
def parseBound (s : String) : Option String :=
  match s.data with
  | '[' :: rest => some ⟨rest⟩
  | _ => none

/-- Redis ZRANGEBYLEX with inclusive bounds and a start/num slice;
empty for an absent key, error on wrong type, malformed bound or
fault. -/
def rZrangebylex (c : Client) (k : String) (lo hi : String) (start num : Nat) :
    Res (List String) × Client :=
  let p := c.pop
  if p.1 then
    match parseBound lo, parseBound hi with
    | some lov, some hiv =>
      match p.2.st k with
      | none => (.ok [], p.2)
      | some e =>
        match e.val with
        | .zset ms =>
          (.ok (((ms.filter (fun m => strLe lov m && strLe m hiv)).drop start).take num), p.2)
        | _ => (.error (), p.2)
    | _, _ => (.error (), p.2)
  else (.error (), p.2)

/-! ## AsyncRedisCache (src/core/caching/in_redis.py) -/

/-- Serialization chosen by AsyncRedisCache.set: msgpack packed and
zlib compressed when compress is set, plain JSON text otherwise. -/
def serializeFor (compress : Bool) (v : Value) : Bytes :=
  if compress then zlibCompress (msgpackPackb v) else jsonDumps v

/-- AsyncRedisCache.get: read the key and decode.  A falsy reply (absent
key or empty bytes) is a miss; a RedisError or any decode failure of
either codec is caught and also reported as a miss (the Python function
returns None, modelled as Value.null, and never raises). -/
def cacheGet (c : Client) (key : String) (compressed : Bool) : Res Value × Client :=
  match rGet c key with
  | (.error _, c') => (.ok .null, c')
  | (.ok none, c') => (.ok .null, c')
  | (.ok (some w), c') =>
    if w.isEmpty then (.ok .null, c')
    else if compressed then
      match deserializeData w with
      | none => (.ok .null, c')
      | some v => (.ok v, c')
    else
      match jsonLoads w with
      | none => (.ok .null, c')
      | some v => (.ok v, c')

/-- The tag-set key for a tag (the "tag:" namespace of
AsyncRedisCache.set and invalidate_by_tag). -/
def tagKey (tag : String) : String := "tag:" ++ tag

/-- Tag registration loop of AsyncRedisCache.set: for each tag, SADD the
key into the tag set and EXPIRE the tag set to the entry TTL.  Errors
propagate (no try/except in set). -/
def setTags (c : Client) (key : String) (ttl : Nat) : List String → Res Unit × Client
  | [] => (.ok (), c)
  | tag :: rest =>
    match rSadd c (tagKey tag) key with
    | (.error e, c') => (.error e, c')
    | (.ok _, c') =>
      match rExpire c' (tagKey tag) ttl with
      | (.error e, c'') => (.error e, c'')
      | (.ok _, c'') => setTags c'' key ttl rest

/-- AsyncRedisCache.set: serialize, SETEX, then register tags.  Store
failures propagate to the caller (writes never fail silently). -/
def cacheSet (c : Client) (key : String) (values : Value) (ttl : Nat)
    (compress : Bool) (tags : List String) : Res Unit × Client :=
  match rSetex c key ttl (serializeFor compress values) with
  | (.error e, c') => (.error e, c')
  | (.ok _, c') => setTags c' key ttl tags

/-- AsyncRedisCache.delete: DEL one key, returning the deletion count. -/
def cacheDelete (c : Client) (key : String) : Res Nat × Client :=
  rDel c [key]

/-- AsyncRedisCache.invalidate_by_tag: SMEMBERS of the tag set, bulk DEL
of the member keys, then DEL of the tag set itself; returns the member
deletion count. -/
def invalidateByTag (c : Client) (tag : String) : Res Nat × Client :=
  match rSmembers c (tagKey tag) with
  | (.error e, c') => (.error e, c')
  | (.ok keys, c') =>
    if keys.isEmpty then (.ok 0, c')
    else
      match rDel c' keys with
      | (.error e, c'') => (.error e, c'')
      | (.ok n, c'') =>
        match rDel c'' [tagKey tag] with
        | (.error e, c3) => (.error e, c3)
        | (.ok _, c3) => (.ok n, c3)

/-- AsyncRedisCache.get_or_set with a pure factory: return the cached
value when the read yields something other than None, else invoke the
factory, store its result, and return it.  The extra Nat reports how
many times the factory ran (0 on a hit, 1 on a miss). -/
def getOrSet (c : Client) (key : String) (factory : Value) (ttl : Nat)
    (compress : Bool) (tags : List String) : Res (Value × Nat) × Client :=
  match cacheGet c key compress with
  | (.error e, c') => (.error e, c')
  | (.ok cached, c') =>
    if !cached.isNull then (.ok (cached, 0), c')
    else
      match cacheSet c' key factory ttl compress tags with
      | (.error e, c'') => (.error e, c'')
      | (.ok _, c'') => (.ok (factory, 1), c'')

/-- The decode step cacheGet applies to stored string bytes. -/
def decodeFor (compressed : Bool) (w : Bytes) : Option Value :=
  if compressed then deserializeData w else jsonLoads w

/-- A stored state the cache reads as a miss: absent key, wrong type
(the read error is caught), empty bytes, or string bytes whose decode
under the chosen codec fails or yields None. -/
def missLike (st : Store) (k : String) (compressed : Bool) : Bool :=
  match st k with
  | none => true
  | some e =>
    match e.val with
    | .str w =>
      w.isEmpty ||
        (match decodeFor compressed w with
          | none => true
          | some .null => true
          | some _ => false)
    | _ => true

/-! ## Word-autocomplete index -/

/-- Python str.lower, modelled character-wise. -/
def pyLower (s : String) : String := ⟨s.data.map Char.toLower⟩

/-- Python str.strip with no argument: drop leading and trailing
whitespace. -/
def pyStrip (s : String) : String :=
  ⟨((s.data.dropWhile Char.isWhitespace).reverse.dropWhile
    Char.isWhitespace).reverse⟩

/-- Python str.rstrip with no argument: drop trailing whitespace. -/
def pyRstrip (s : String) : String :=
  ⟨(s.data.reverse.dropWhile Char.isWhitespace).reverse⟩

/-- Whether the string ends with a single space (the endswith test of
the next-word branch). -/
def endsWithSpace (s : String) : Bool :=
  match s.data.getLast? with
  | some ch => ch = ' '
  | none => false

/-- Helper of pySplitWs: accumulate the current token (reversed) while
scanning. -/
def pySplitWsAux (acc : List Char) : List Char → List String
  | [] => if acc.isEmpty then [] else [⟨acc.reverse⟩]
  | ch :: cs =>
    if ch.isWhitespace then
      if acc.isEmpty then pySplitWsAux [] cs
      else (⟨acc.reverse⟩ : String) :: pySplitWsAux [] cs
    else pySplitWsAux (ch :: acc) cs

/-- Python str.split with no argument: split on whitespace runs,
dropping empty tokens. -/
def pySplitWs (s : String) : List String := pySplitWsAux [] s.data

/-- The index entries build_word_autocomplete_index generates: for each
suggestion (lowercased and stripped when normalize is set), every slice
of length at least minPfxLen up to the full string, each written as the
slice, a star, and the full suggestion. -/
def buildEntries (suggestions : List String) (minPfxLen : Nat) (normalize : Bool) :
    List String :=
  (suggestions.map (fun s0 =>
    let s := if normalize then pyStrip (pyLower s0) else s0
    (List.range' minPfxLen (s.length + 1 - minPfxLen)).map
      (fun i => (⟨s.data.take i⟩ : String) ++ "*" ++ s))).flatten

/-- The except-branch of build_word_autocomplete_index: DEL the
temporary key, then re-raise.  If the cleanup DEL itself raises, that
error propagates instead and the temporary key survives (Python
semantics of an exception inside an except block). -/
def buildCleanup (c : Client) (tempKey : String) (e : Unit) : Res Nat × Client :=
  match rDel c [tempKey] with
  | (.error e2, c') => (.error e2, c')
  | (.ok _, c') => (.error e, c')

/-- AsyncRedisCache.build_word_autocomplete_index: ZADD all entries into
a fresh temporary sorted set (skipped when there are no entries), RENAME
it over the live index key, then EXPIRE when a truthy TTL was given; the
entry count (distinct entries, Python dict keys) is returned.  Any
failure runs the cleanup branch. -/
def buildIndex (c : Client) (indexKey tempKey : String) (suggestions : List String)
    (minPfxLen : Nat) (normalize : Bool) (ttl : Option Nat) : Res Nat × Client :=
  let entries := buildEntries suggestions minPfxLen normalize
  let step1 : Res Unit × Client :=
    if entries.isEmpty then (.ok (), c) else rZadd c tempKey entries
  match step1 with
  | (.error e, c1) => buildCleanup c1 tempKey e
  | (.ok _, c1) =>
    match rRename c1 tempKey indexKey with
    | (.error e, c2) => buildCleanup c2 tempKey e
    | (.ok _, c2) =>
      match ttl with
      | some (t + 1) =>
        match rExpire c2 indexKey (t + 1) with
        | (.error e, c3) => buildCleanup c3 tempKey e
        | (.ok _, c3) => (.ok entries.dedup.length, c3)
      | _ => (.ok entries.dedup.length, c2)

/-- Split a member on its first star into the matched slice and the full
name (Python split with maxsplit one, guarded by the containment
test). -/
def splitStar (s : String) : Option (String × String) :=
  (go s.data).map (fun p => (⟨p.1⟩, ⟨p.2⟩))
where
  go : List Char → Option (List Char × List Char)
    | [] => none
    | ch :: cs =>
      if ch = '*' then some ([], cs)
      else (go cs).map (fun p => (ch :: p.1, p.2))

/-- The full-name extraction loop of search_with_word_completion:
de-duplicate full names preserving first-seen order, stopping once the
collection reaches twice the limit (checked after every starred
member). -/
def collectNames (limit2 : Nat) (acc : List String) : List String → List String
  | [] => acc
  | r :: rs =>
    match splitStar r with
    | none => collectNames limit2 acc rs
    | some q =>
      let acc' := if q.2 ∈ acc then acc else acc ++ [q.2]
      if limit2 ≤ acc'.length then acc'
      else collectNames limit2 acc' rs

/-- Insert into an ascending string list (Python sorted on the
next-word set). -/
def sortIns (s : String) : List String → List String
  | [] => [s]
  | t :: ts => if strLt s t then s :: t :: ts else t :: sortIns s ts

/-- Ascending sort of a string list by code-point order. -/
def sortStrings (l : List String) : List String := l.foldl (fun acc s => sortIns s acc) []

/-- The next-word scan of search_with_word_completion: for every full
name whose word tokens extend the typed words, record the unseen next
word and the matching name. -/
def nextWordScan (pfxWords : List String) (names : List String) :
    List String × List String :=
  names.foldl
    (fun acc name =>
      let ws := pySplitWs name
      if pfxWords.length < ws.length ∧ ws.take pfxWords.length = pfxWords then
        let nw := ws.getD pfxWords.length ""
        if nw ∈ acc.1 then acc else (acc.1 ++ [nw], acc.2 ++ [name])
      else acc)
    ([], [])

/-- The dictionary search_with_word_completion returns; an absent
next_words_only field is the empty list, and pfx is the prefix field of
the reply. -/
structure SearchResult where
  mode : String
  suggestions : List String
  next_words_only : List String
  pfx : String
  deriving Repr, DecidableEq

/-- AsyncRedisCache.search_with_word_completion: normalize (lowercase
and strip) when asked, answer empty full mode below two characters, scan
the member range from the starred pattern to the high-byte sentinel,
extract full names, then answer in next-word mode when the (already
normalized) input still ends in a space, else in full mode. -/
def searchWithWordCompletion (c : Client) (indexKey : String) (pfx0 : String)
    (limit : Nat) (normalize : Bool) : Res SearchResult × Client :=
  let pfx := if normalize then pyStrip (pyLower pfx0) else pfx0
  if pfx.length < 2 then (.ok ⟨"full", [], [], pfx⟩, c)
  else
    match rZrangebylex c indexKey ("[" ++ pfx ++ "*") ("[" ++ pfx ++ "\xff") 0 (limit * 10) with
    | (.error e, c') => (.error e, c')
    | (.ok results, c') =>
      let fullNames := collectNames (limit * 2) [] results
      if fullNames.isEmpty then (.ok ⟨"full", [], [], pfx⟩, c')
      else if endsWithSpace pfx then
        let pfxClean := pyRstrip pfx
        let pfxWords := pySplitWs pfxClean
        let scan := nextWordScan pfxWords fullNames
        (.ok ⟨"next_word", scan.2.take limit, (sortStrings scan.1).take limit, pfxClean⟩, c')
      else (.ok ⟨"full", fullNames.take limit, [], pfx⟩, c')

/-! ## DistributedLock (src/core/task_locking/in_redis.py)

The lock client runs with decode_responses, so the lock store maps lock
keys to the owning token (a string) and the remaining TTL.  The
heartbeat task never appears in these claims' store traces, so it is not
modelled; release cancels and awaits it before its store round trip,
which has no store effect. -/

/-- The lock-key space: owner token and remaining TTL per key. -/
abbrev LockStore := String → Option (String × Nat)

/-- Point update of a lock store. -/
def updL (st : LockStore) (k : String) (e : Option (String × Nat)) : LockStore :=
  fun k' => if k' = k then e else st k'

/-- In-process state of a DistributedLock handle: the constructor
arguments plus the mutable token and acquired flag. -/
structure DLock where
  key : String
  ttl : Nat
  retryTimes : Option Nat
  autoExtend : Bool
  skipIfLocked : Bool
  token : Option String
  acquiredFlag : Bool
  deriving Repr, DecidableEq

/-- DistributedLock.__init__: prepends the lock namespace to the key;
token starts empty and the acquired flag false. -/
def mkDLock (key : String) (ttl : Nat) (retryTimes : Option Nat)
    (autoExtend skipIfLocked : Bool) : DLock :=
  ⟨"lock:" ++ key, ttl, retryTimes, autoExtend, skipIfLocked, none, false⟩

/-- The retry loop of DistributedLock.acquire, after the fresh token has
been written into the handle.  Each iteration is one conditional
SET-if-absent-with-TTL round trip; on failure a non-blocking call
returns at once, a blocking call gives up once the attempt count
reaches the retry budget, else sleeps and retries.  The result carries
the outcome, the handle, the store, the number of store attempts and the
number of sleeps; none means the fuel ran out before the loop returned
(the unbounded blocking loop). -/
def acquireLoop (l : DLock) (blocking : Bool) (st : LockStore)
    (attempts sleeps : Nat) : Nat → Option (Bool × DLock × LockStore × Nat × Nat)
  | 0 => none
  | fuel + 1 =>
    match st l.key with
    | none =>
      some (true, { l with acquiredFlag := true },
        updL st l.key (some (l.token.getD "", l.ttl)), attempts + 1, sleeps)
    | some _ =>
      if !blocking then some (false, l, st, attempts + 1, sleeps)
      else
        match l.retryTimes with
        | some rt =>
          if rt ≤ attempts + 1 then some (false, l, st, attempts + 1, sleeps)
          else acquireLoop l blocking st (attempts + 1) (sleeps + 1) fuel
        | none => acquireLoop l blocking st (attempts + 1) (sleeps + 1) fuel

/-- DistributedLock.acquire: generate a fresh token (passed in, since
uuid4 is nondeterministic), store it on the handle, and run the attempt
loop. -/
def dlAcquire (l : DLock) (tok : String) (blocking : Bool) (st : LockStore)
    (fuel : Nat) : Option (Bool × DLock × LockStore × Nat × Nat) :=
  acquireLoop { l with token := some tok } blocking st 0 0 fuel

/-- DistributedLock.release: after cancelling and awaiting the
heartbeat, an empty token reports false without a store round trip;
otherwise the atomic compare-and-delete script removes the record only
when the stored token equals this handle's token, and the handle then
clears its token and acquired flag.  Total: lost ownership never
raises. -/
def dlRelease (l : DLock) (st : LockStore) : Bool × DLock × LockStore :=
  match l.token with
  | none => (false, l, st)
  | some t =>
    let cleared := { l with token := none, acquiredFlag := false }
    match st l.key with
    | some e =>
      if e.1 = t then (true, cleared, updL st l.key none)
      else (false, cleared, st)
    | none => (false, cleared, st)

/-- DistributedLock.extend: an empty token reports false; otherwise the
atomic compare-and-expire script refreshes the TTL (falsy
additional_time means the handle's own TTL) only when the stored token
equals this handle's token.  Total: lost ownership never raises. -/
def dlExtend (l : DLock) (additional : Option Nat) (st : LockStore) :
    Bool × LockStore :=
  match l.token with
  | none => (false, st)
  | some t =>
    let extendTime := match additional with
      | none => l.ttl
      | some 0 => l.ttl
      | some (n + 1) => n + 1
    match st l.key with
    | some e =>
      if e.1 = t then (true, updL st l.key (some (e.1, extendTime)))
      else (false, st)
    | none => (false, st)

/-- DistributedLock.__aenter__: a skip_if_locked handle makes one
non-blocking acquire attempt and, on failure, yields itself unacquired
instead of raising; a blocking handle that fails its retry budget raises
RuntimeError. -/
def dlAenter (l : DLock) (tok : String) (st : LockStore) (fuel : Nat) :
    Option (Except String (DLock × LockStore) × Nat × Nat) :=
  match dlAcquire l tok (!l.skipIfLocked) st fuel with
  | none => none
  | some (acquired, l', st', att, slp) =>
    if acquired then some (.ok (l', st'), att, slp)
    else if l.skipIfLocked then some (.ok (l', st'), att, slp)
    else some (.error ("Failed to acquire lock: " ++ l.key), att, slp)

/-- DistributedLock.__aexit__: release only when this handle actually
acquired the lock. -/
def dlAexit (l : DLock) (st : LockStore) : DLock × LockStore :=
  if l.acquiredFlag then
    let r := dlRelease l st
    (r.2.1, r.2.2)
  else (l, st)

/-- Two concurrent non-blocking acquire calls on the same key: each call
performs exactly one atomic store round trip, so the interleavings are
the two orders of those round trips; the flag picks which handle goes
first.  Returns both outcomes. -/
def twoAcquire (l1 l2 : DLock) (t1 t2 : String) (st : LockStore)
    (l1First : Bool) : Option (Bool × Bool) :=
  if l1First then
    match dlAcquire l1 t1 false st 1 with
    | none => none
    | some (r1, _, st1, _, _) =>
      match dlAcquire l2 t2 false st1 1 with
      | none => none
      | some (r2, _, _, _, _) => some (r1, r2)
  else
    match dlAcquire l2 t2 false st 1 with
    | none => none
    | some (r2, _, st1, _, _) =>
      match dlAcquire l1 t1 false st1 1 with
      | none => none
      | some (r1, _, _, _, _) => some (r1, r2)

/-! ## Concrete fixtures used by witnesses and counterexamples -/

/-- A handle that formerly held the lock with token a. -/
def lockW : DLock := ⟨"lock:job", 30, none, false, false, some "a", true⟩

/-- A lock store in which lock:job is held by another owner with token
b. -/
def lockStoreW : LockStore := fun k => if k = "lock:job" then some ("b", 30) else none

/-- The empty lock store. -/
def lockStoreE : LockStore := fun _ => none

/-- A fault-free client over an empty store. -/
def clientE : Client := ⟨fun _ => none, []⟩

/-- A client whose next store round trip raises. -/
def clientFault : Client := ⟨fun _ => none, [false]⟩

/-- A fault-free client whose key k holds a stored JSON null. -/
def clientJsonNull : Client :=
  ⟨fun k => if k = "k" then some ⟨.str (jsonDumps .null), some 9⟩ else none, []⟩

/-- A fault-free client whose tag set for tag t has 100 seconds of TTL
left (as, for example, after an earlier tagged write with ttl 100). -/
def clientC8 : Client :=
  ⟨fun k => if k = "tag:t" then some ⟨.sset ["k0"], some 100⟩ else none, []⟩

/-- A client serving an old live index at idx, with a store failure
injected at the third round trip — the EXPIRE that applies the TTL after
ZADD and RENAME have succeeded. -/
def clientC7 : Client :=
  ⟨fun k => if k = "idx" then some ⟨.zset ["old*old"], none⟩ else none,
    [true, true, false]⟩

/-- The index built from the two pizza suggestions with minimum slice
length 2 and default normalization, on a fault-free client. -/
def pizzaIndex : Client :=
  (buildIndex clientE "idx" "idx:temp:1" ["pizza margherita", "pizza diavola"]
    2 true none).2

/-! ## Helper lemmas -/

theorem packValue_length_pos (v : Value) : 0 < (packValue v).length := by
  cases v <;> simp [packValue]

mutual
theorem vcost_le_length (v : Value) : vcost v ≤ (packValue v).length := by
  match v with
  | .null | .bool _ | .int _ | .str _ => simp [vcost, packValue]
  | .arr l =>
      have h := lcost_le_length l
      simp only [vcost, packValue, List.length_cons]
      omega

theorem lcost_le_length (l : List Value) : lcost l ≤ (packList l).length + 1 := by
  match l with
  | [] => simp [lcost]
  | v :: vs =>
      have h1 := vcost_le_length v
      have h2 := lcost_le_length vs
      have h3 := packValue_length_pos v
      simp only [lcost, packList, List.length_append]
      omega
end

theorem parseVals_packList (l : List Value) (fuel : Nat) (rest : Bytes)
    (h : lcost l ≤ fuel) :
    parseVals fuel l.length (packList l ++ rest) = some (l, rest) := by
  match l with
  | [] => simp [packList, parseVals]
  | .null :: vs =>
      unfold lcost at h
      obtain ⟨f, rfl⟩ : ∃ f, fuel = f + 1 := ⟨fuel - 1, by omega⟩
      have hm := Nat.max_le.mp (by omega : max (vcost .null) (lcost vs) ≤ f)
      have hstep : ∀ r : Bytes,
          parseVals f vs.length (packList vs ++ r) = some (vs, r) :=
        fun r => parseVals_packList vs f r hm.2
      simp [packList, packValue, parseVals, List.append_assoc, hstep]
  | .bool b :: vs =>
      unfold lcost at h
      obtain ⟨f, rfl⟩ : ∃ f, fuel = f + 1 := ⟨fuel - 1, by omega⟩
      have hm := Nat.max_le.mp (by omega : max (vcost (.bool b)) (lcost vs) ≤ f)
      have hstep : ∀ r : Bytes,
          parseVals f vs.length (packList vs ++ r) = some (vs, r) :=
        fun r => parseVals_packList vs f r hm.2
      cases b <;> simp [packList, packValue, parseVals, List.append_assoc, hstep]
  | .int n :: vs =>
      unfold lcost at h
      obtain ⟨f, rfl⟩ : ∃ f, fuel = f + 1 := ⟨fuel - 1, by omega⟩
      have hm := Nat.max_le.mp (by omega : max (vcost (.int n)) (lcost vs) ≤ f)
      have hstep : ∀ r : Bytes,
          parseVals f vs.length (packList vs ++ r) = some (vs, r) :=
        fun r => parseVals_packList vs f r hm.2
      have hn : ((n.toNat : Int) - ((-n).toNat : Int)) = n := by omega
      simp [packList, packValue, parseVals, List.append_assoc, hstep, hn]
  | .str s :: vs =>
      unfold lcost at h
      obtain ⟨f, rfl⟩ : ∃ f, fuel = f + 1 := ⟨fuel - 1, by omega⟩
      have hm := Nat.max_le.mp (by omega : max (vcost (.str s)) (lcost vs) ≤ f)
      have hstep : ∀ r : Bytes,
          parseVals f vs.length (packList vs ++ r) = some (vs, r) :=
        fun r => parseVals_packList vs f r hm.2
      obtain ⟨data⟩ := s
      simp only [packList, List.append_assoc, packValue, List.cons_append,
        List.length_cons, parseVals, String.length, List.length_append,
        List.length_map]
      rw [if_neg (by omega)]
      rw [List.take_left' (by simp), List.drop_left' (by simp)]
      simp [List.map_map, Function.comp_def, Char.ofNat_toNat, hstep]
  | .arr l2 :: vs =>
      unfold lcost at h
      obtain ⟨f, rfl⟩ : ∃ f, fuel = f + 1 := ⟨fuel - 1, by omega⟩
      have hm := Nat.max_le.mp (by omega : max (vcost (.arr l2)) (lcost vs) ≤ f)
      have hstep : ∀ r : Bytes,
          parseVals f vs.length (packList vs ++ r) = some (vs, r) :=
        fun r => parseVals_packList vs f r hm.2
      have hl2 : lcost l2 ≤ f := by
        have hv := hm.1
        unfold vcost at hv
        exact hv
      simp only [packList, List.append_assoc, packValue, List.cons_append,
        List.length_cons, parseVals]
      rw [parseVals_packList l2 f (packList vs ++ rest) hl2]
      simp [hstep]
termination_by sizeOf l

theorem unpackValue_packValue (v : Value) : unpackValue (packValue v) = some v := by
  have hc : lcost [v] ≤ (packValue v).length + 1 := by
    have h1 := vcost_le_length v
    simp only [lcost]
    omega
  have h := parseVals_packList [v] ((packValue v).length + 1) [] hc
  simp only [packList, List.append_nil, List.length_cons, List.length_nil] at h
  unfold unpackValue
  rw [h]

theorem deserializeData_roundtrip (v : Value) :
    deserializeData (zlibCompress (msgpackPackb v)) = some v := by
  simp [deserializeData, zlibCompress, zlibDecompress, msgpackPackb, msgpackUnpackb,
    unpackValue_packValue]

theorem jsonLoads_jsonDumps (v : Value) : jsonLoads (jsonDumps v) = some v := by
  simp [jsonLoads, jsonDumps, unpackValue_packValue]

@[simp] theorem updS_same (st : Store) (k : String) (e : Option Entry) :
    updS st k e k = e := by simp [updS]

theorem updS_other (st : Store) (k k' : String) (e : Option Entry) (h : k' ≠ k) :
    updS st k e k' = st k' := by simp [updS, h]

@[simp] theorem updL_same (st : LockStore) (k : String) (e : Option (String × Nat)) :
    updL st k e k = e := by simp [updL]

theorem updL_other (st : LockStore) (k k' : String) (e : Option (String × Nat))
    (h : k' ≠ k) : updL st k e k' = st k' := by simp [updL, h]

theorem pop_st (c : Client) : c.pop.2.st = c.st := by
  cases h : c.faults <;> simp [Client.pop, h]

theorem pop_true_of_cFalse_zero (c : Client) (h : cFalse c = 0) : c.pop.1 = true := by
  cases hf : c.faults with
  | nil => simp [Client.pop, hf]
  | cons f fs =>
      cases f with
      | true => simp [Client.pop, hf]
      | false => simp [cFalse, hf] at h

theorem cFalse_pop_le (c : Client) : cFalse c.pop.2 ≤ cFalse c := by
  cases hf : c.faults with
  | nil => simp [Client.pop, hf]
  | cons f fs => simp [Client.pop, hf, cFalse, List.count_cons]

theorem cFalse_pop_of_false (c : Client) (h : c.pop.1 = false) :
    cFalse c.pop.2 + 1 = cFalse c := by
  cases hf : c.faults with
  | nil => simp [Client.pop, hf] at h
  | cons f fs =>
      simp [Client.pop, hf] at h
      simp [Client.pop, hf, cFalse, List.count_cons, h]

theorem serializeFor_isEmpty_false (compress : Bool) (v : Value) :
    (serializeFor compress v).isEmpty = false := by
  cases compress <;> simp [serializeFor, zlibCompress, jsonDumps, msgpackPackb]

theorem deserializeData_serializeFor (v : Value) :
    deserializeData (serializeFor true v) = some v := by
  simp [serializeFor, deserializeData_roundtrip]

theorem jsonLoads_serializeFor (v : Value) :
    jsonLoads (serializeFor false v) = some v := by
  simp [serializeFor, jsonLoads_jsonDumps]

theorem decodeFor_serializeFor (b : Bool) (v : Value) :
    decodeFor b (serializeFor b v) = some v := by
  cases b <;> simp [decodeFor, deserializeData_serializeFor, jsonLoads_serializeFor]

theorem cacheGet_of_missLike (st0 : Store) (k : String) (b : Bool)
    (hmiss : missLike st0 k b = true) :
    cacheGet ⟨st0, []⟩ k b = (.ok .null, ⟨st0, []⟩) := by
  unfold missLike at hmiss
  unfold cacheGet rGet
  have hpop : Client.pop ⟨st0, []⟩ = (true, ⟨st0, []⟩) := rfl
  cases hst : st0 k with
  | none => simp [hpop, hst]
  | some e =>
    simp only [hst] at hmiss
    cases hv : e.val with
    | str w =>
      simp only [hv] at hmiss
      by_cases he : w.isEmpty
      · simp [hpop, hst, hv, he]
      · simp only [he, Bool.false_or] at hmiss
        cases b with
        | true =>
          cases hd : deserializeData w with
          | none => simp [hpop, hst, hv, he, hd]
          | some v =>
            rw [show decodeFor true w = some v by simpa [decodeFor] using hd] at hmiss
            cases v <;> simp_all [hpop, hst, hv, he, hd]
        | false =>
          cases hd : jsonLoads w with
          | none => simp [hpop, hst, hv, he, hd]
          | some v =>
            rw [show decodeFor false w = some v by simpa [decodeFor] using hd] at hmiss
            cases v <;> simp_all [hpop, hst, hv, he, hd]
    | sset ms => simp [hpop, hst, hv]
    | zset ms => simp [hpop, hst, hv]

theorem missLike_of_none (st : Store) (k : String) (b : Bool) (h : st k = none) :
    missLike st k b = true := by
  unfold missLike
  rw [h]

theorem cacheSet_fresh_tag (st : Store) (k tg : String) (v : Value) (ttl : Nat)
    (cp : Bool) (hk : k ≠ tagKey tg) (hnz : ttl ≠ 0) (hft : st (tagKey tg) = none) :
    cacheSet ⟨st, []⟩ k v ttl cp [tg] =
      (.ok (), ⟨updS (updS (updS st k (some ⟨.str (serializeFor cp v), some ttl⟩))
        (tagKey tg) (some ⟨.sset [k], none⟩)) (tagKey tg)
        (some ⟨.sset [k], some ttl⟩), []⟩) := by
  have hk' : tagKey tg ≠ k := fun hEq => hk hEq.symm
  simp [cacheSet, rSetex, Client.pop, setTags, rSadd, rExpire, hnz,
    updS_other, hk', hft]

theorem cacheSet_existing_tag (st : Store) (k tg : String) (v : Value) (ttl : Nat)
    (cp : Bool) (ms : List String) (tt : Option Nat) (hk : k ≠ tagKey tg)
    (hnz : ttl ≠ 0) (hft : st (tagKey tg) = some ⟨.sset ms, tt⟩) (hm : k ∉ ms) :
    cacheSet ⟨st, []⟩ k v ttl cp [tg] =
      (.ok (), ⟨updS (updS (updS st k (some ⟨.str (serializeFor cp v), some ttl⟩))
        (tagKey tg) (some ⟨.sset (ms ++ [k]), tt⟩)) (tagKey tg)
        (some ⟨.sset (ms ++ [k]), some ttl⟩), []⟩) := by
  have hk' : tagKey tg ≠ k := fun hEq => hk hEq.symm
  simp [cacheSet, rSetex, Client.pop, setTags, rSadd, rExpire, hnz,
    updS_other, hk', hft, hm]

theorem invalidateByTag_two (st : Store) (tg k1 k2 : String) (tt : Option Nat)
    (e1 e2 : Entry) (hmem : st (tagKey tg) = some ⟨.sset [k1, k2], tt⟩)
    (h1 : st k1 = some e1) (h2 : st k2 = some e2) (hk : k1 ≠ k2)
    (ht1 : k1 ≠ tagKey tg) (ht2 : k2 ≠ tagKey tg) :
    invalidateByTag ⟨st, []⟩ tg =
      (.ok 2, ⟨updS (updS (updS st k1 none) k2 none) (tagKey tg) none, []⟩) := by
  have hk' : k2 ≠ k1 := fun hEq => hk hEq.symm
  have ht1' : tagKey tg ≠ k1 := fun hEq => ht1 hEq.symm
  have ht2' : tagKey tg ≠ k2 := fun hEq => ht2 hEq.symm
  simp [invalidateByTag, rSmembers, Client.pop, rDel, delKeys, hmem, h1, h2,
    updS_other, hk', ht1', ht2', updS]

theorem updS_updS_same (st : Store) (k : String) (a b : Option Entry) :
    updS (updS st k a) k b = updS st k b :=
  funext fun k' => by by_cases h : k' = k <;> simp [updS, h]

theorem setTags_step (k tg : String) (ttl : Nat) (hnz : ttl ≠ 0) (st : Store)
    (hok : st (tagKey tg) = none ∨
      ∃ ms tt, st (tagKey tg) = some ⟨.sset ms, tt⟩) :
    ∃ ms', k ∈ ms' ∧ ∀ rest, setTags ⟨st, []⟩ k ttl (tg :: rest) =
      setTags ⟨updS st (tagKey tg) (some ⟨.sset ms', some ttl⟩), []⟩ k ttl rest := by
  rcases hok with h | ⟨ms, tt, h⟩
  · refine ⟨[k], by simp, fun rest => ?_⟩
    simp [setTags, rSadd, rExpire, Client.pop, h, hnz, updS_updS_same]
  · by_cases hmem : k ∈ ms
    · refine ⟨ms, hmem, fun rest => ?_⟩
      simp [setTags, rSadd, rExpire, Client.pop, h, hmem, hnz]
    · refine ⟨ms ++ [k], by simp, fun rest => ?_⟩
      simp [setTags, rSadd, rExpire, Client.pop, h, hmem, hnz, updS_updS_same]

theorem setTags_registers (k : String) (ttl : Nat) (hnz : ttl ≠ 0) :
    ∀ (tags : List String) (st : Store),
      (∀ tg ∈ tags, st (tagKey tg) = none ∨
        ∃ ms tt, st (tagKey tg) = some ⟨.sset ms, tt⟩) →
      ∃ st', setTags ⟨st, []⟩ k ttl tags = (.ok (), ⟨st', []⟩) ∧
        (∀ tg ∈ tags, ∃ ms, st' (tagKey tg) = some ⟨.sset ms, some ttl⟩ ∧ k ∈ ms) ∧
        (∀ k2, (∀ tg ∈ tags, k2 ≠ tagKey tg) → st' k2 = st k2)
  | [], st, _ => ⟨st, by simp [setTags], by simp, fun k2 _ => rfl⟩
  | tg :: rest, st, hok => by
      obtain ⟨ms', hkms, hstep⟩ := setTags_step k tg ttl hnz st (hok tg (by simp))
      set st2 := updS st (tagKey tg) (some ⟨.sset ms', some ttl⟩) with hst2
      have hokr : ∀ tg' ∈ rest, st2 (tagKey tg') = none ∨
          ∃ ms tt, st2 (tagKey tg') = some ⟨.sset ms, tt⟩ := by
        intro tg' htg'
        by_cases he : tagKey tg' = tagKey tg
        · exact Or.inr ⟨ms', some ttl, by rw [hst2, he, updS_same]⟩
        · rw [hst2, updS_other _ _ _ _ he]
          exact hok tg' (by simp [htg'])
      obtain ⟨st', hrun, hP, hU⟩ := setTags_registers k ttl hnz rest st2 hokr
      refine ⟨st', by rw [hstep rest]; exact hrun, ?_, ?_⟩
      · intro tg' htg'
        rcases List.mem_cons.mp htg' with he | hin
        · subst he
          by_cases hc : ∃ tg2 ∈ rest, tagKey tg2 = tagKey tg'
          · obtain ⟨tg2, htg2, hkey⟩ := hc
            obtain ⟨ms2, hms2, hkm2⟩ := hP tg2 htg2
            exact ⟨ms2, by rw [← hkey]; exact hms2, hkm2⟩
          · push_neg at hc
            have hu := hU (tagKey tg')
              (fun tg2 h2 hEq => hc tg2 h2 hEq.symm)
            refine ⟨ms', ?_, hkms⟩
            rw [hu, hst2, updS_same]
        · exact hP tg' hin
      · intro k2 hk2
        have h1 := hU k2 (fun tg2 h2 => hk2 tg2 (by simp [h2]))
        rw [h1, hst2, updS_other _ _ _ _ (hk2 tg (by simp))]

theorem cacheGet_isOk (c : Client) (k : String) (b : Bool) :
    ∃ v c', cacheGet c k b = (.ok v, c') := by
  unfold cacheGet
  rcases hg : rGet c k with ⟨res, c'⟩
  cases res with
  | error e => exact ⟨_, _, rfl⟩
  | ok ob =>
    cases ob with
    | none => exact ⟨_, _, rfl⟩
    | some w =>
      by_cases he : w.isEmpty
      · simp [he]
      · cases b with
        | true =>
            cases hd : deserializeData w <;> simp [he, hd]
        | false =>
            cases hd : jsonLoads w <;> simp [he, hd]

theorem rRename_absent (c : Client) (src dst : String) (h : c.st src = none) :
    rRename c src dst = (.error (), c.pop.2) := by
  rcases hp : c.pop with ⟨b, c2⟩
  have hst : c2.st = c.st := by
    have hps := pop_st c
    rw [hp] at hps
    exact hps
  cases b <;> simp [rRename, hp, hst, h]

theorem buildCleanup_absent (c : Client) (tempKey : String) (e : Unit)
    (ht : c.st tempKey = none) :
    ∃ fs', buildCleanup c tempKey e = (.error (), ⟨c.st, fs'⟩) := by
  rcases hp : c.pop with ⟨b, c2⟩
  have hst : c2.st = c.st := by
    have hps := pop_st c
    rw [hp] at hps
    exact hps
  obtain ⟨st2, fs2⟩ := c2
  simp only at hst
  subst hst
  cases b
  · exact ⟨fs2, by simp [buildCleanup, rDel, hp]⟩
  · exact ⟨fs2, by simp [buildCleanup, rDel, delKeys, hp, ht]⟩

theorem buildCleanup_present (c : Client) (tempKey : String) (e : Unit) (ent : Entry)
    (ht : c.st tempKey = some ent) (hz : cFalse c = 0) :
    ∃ fs', buildCleanup c tempKey e = (.error (), ⟨updS c.st tempKey none, fs'⟩) := by
  have hb := pop_true_of_cFalse_zero c hz
  rcases hp : c.pop with ⟨b, c2⟩
  rw [hp] at hb
  simp only at hb
  subst hb
  have hst : c2.st = c.st := by
    have hps := pop_st c
    rw [hp] at hps
    exact hps
  obtain ⟨st2, fs2⟩ := c2
  simp only at hst
  subst hst
  exact ⟨fs2, by simp [buildCleanup, rDel, delKeys, hp, ht]⟩

/-! ## Claims -/

/-- Claim C1: a DistributedLock handle whose token differs from the
value currently stored at its lock key (for example after TTL expiry and
re-acquisition by another handle) gets false from both release and
extend, and the stored lock record is left unchanged; both operations
are total functions of the model, so lost ownership never raises. -/
theorem lost_ownership_release_extend_fail_without_mutation (l : DLock)
    (st : LockStore) (h : (st l.key).map Prod.fst ≠ l.token) :
    (dlRelease l st).1 = false ∧ (dlRelease l st).2.2 = st ∧
      ∀ a, (dlExtend l a st).1 = false ∧ (dlExtend l a st).2 = st := by
  cases htok : l.token with
  | none =>
      cases hst : st l.key with
      | none => simp [dlRelease, dlExtend, htok, hst]
      | some e => simp [dlRelease, dlExtend, htok, hst]
  | some t =>
      cases hst : st l.key with
      | none => simp [dlRelease, dlExtend, htok, hst]
      | some e =>
          rw [hst, htok] at h
          have hne : e.1 ≠ t := fun hEq => h (by simp [hEq])
          simp [dlRelease, dlExtend, htok, hst, hne]

/-- Witness for C1 at a concrete mismatched handle and store. -/
theorem lost_ownership_release_extend_fail_without_mutation_witness :
    ((lockStoreW lockW.key).map Prod.fst ≠ lockW.token) ∧
      ((dlRelease lockW lockStoreW).1 = false ∧
        (dlRelease lockW lockStoreW).2.2 = lockStoreW ∧
        ∀ a, (dlExtend lockW a lockStoreW).1 = false ∧
          (dlExtend lockW a lockStoreW).2 = lockStoreW) :=
  ⟨by decide,
    lost_ownership_release_extend_fail_without_mutation lockW lockStoreW (by decide)⟩

/-- Claim C6: entering a skip_if_locked context while the key is held by
another owner makes exactly one store attempt (attempt count 1) without
sleeping (sleep count 0), does not raise, leaves the store unchanged and
yields the handle with the acquired flag still false; and on exit the
handle releases only if it actually acquired (an unacquired handle's
exit leaves handle and store untouched). -/
theorem skip_if_locked_yields_unacquired_handle (base tok other : String)
    (ttl ottl : Nat) (rt : Option Nat) (ae : Bool) (st : LockStore) (fuel : Nat)
    (hheld : st ("lock:" ++ base) = some (other, ottl)) (hfuel : 0 < fuel) :
    dlAenter (mkDLock base ttl rt ae true) tok st fuel =
      some (.ok ({ mkDLock base ttl rt ae true with token := some tok }, st), 1, 0) ∧
    ({ mkDLock base ttl rt ae true with token := some tok }).acquiredFlag = false ∧
    (∀ l2 st2, l2.acquiredFlag = false → dlAexit l2 st2 = (l2, st2)) := by
  obtain ⟨f, rfl⟩ : ∃ f, fuel = f + 1 := ⟨fuel - 1, by omega⟩
  refine ⟨?_, rfl, ?_⟩
  · simp [dlAenter, dlAcquire, acquireLoop, mkDLock, hheld]
  · intro l2 st2 h2
    simp [dlAexit, h2]

/-- Witness for C6 at a concrete held store. -/
theorem skip_if_locked_yields_unacquired_handle_witness :
    lockStoreW ("lock:" ++ "job") = some ("b", 30) ∧
      dlAenter (mkDLock "job" 30 none false true) "a" lockStoreW 1 =
        some (.ok ({ mkDLock "job" 30 none false true with token := some "a" },
          lockStoreW), 1, 0) :=
  ⟨by decide,
    (skip_if_locked_yields_unacquired_handle "job" "a" "b" 30 30 none false
      lockStoreW 1 (by decide) (by decide)).1⟩

/-- Claim C9: two concurrent non-blocking acquire calls by two handles
on the same lock key, with the key initially absent: each call is one
atomic conditional-set round trip, and under both interleavings of those
round trips exactly one call returns true. -/
theorem concurrent_nonblocking_acquire_exactly_one_wins (l1 l2 : DLock)
    (t1 t2 : String) (st : LockStore) (hkey : l2.key = l1.key)
    (hfree : st l1.key = none) (ord : Bool) :
    ∃ r1 r2, twoAcquire l1 l2 t1 t2 st ord = some (r1, r2) ∧
      ((r1 = true ∧ r2 = false) ∨ (r1 = false ∧ r2 = true)) := by
  cases ord with
  | true =>
      refine ⟨true, false, ?_, Or.inl ⟨rfl, rfl⟩⟩
      have h2 : updL st l1.key (some (t1, l1.ttl)) l2.key = some (t1, l1.ttl) := by
        rw [hkey]; simp
      simp [twoAcquire, dlAcquire, acquireLoop, hfree, h2]
  | false =>
      refine ⟨false, true, ?_, Or.inr ⟨rfl, rfl⟩⟩
      have hfree2 : st l2.key = none := by rw [hkey]; exact hfree
      have h2 : updL st l2.key (some (t2, l2.ttl)) l1.key = some (t2, l2.ttl) := by
        rw [← hkey]; simp
      simp [twoAcquire, dlAcquire, acquireLoop, hfree2, h2]

/-- Witness for C9 at two concrete handles over an empty store. -/
theorem concurrent_nonblocking_acquire_exactly_one_wins_witness :
    (mkDLock "job" 25 none false false).key = (mkDLock "job" 30 none false false).key ∧
      ∃ r1 r2, twoAcquire (mkDLock "job" 30 none false false)
          (mkDLock "job" 25 none false false) "ta" "tb" lockStoreE true = some (r1, r2) ∧
        ((r1 = true ∧ r2 = false) ∨ (r1 = false ∧ r2 = true)) :=
  ⟨by decide,
    concurrent_nonblocking_acquire_exactly_one_wins
      (mkDLock "job" 30 none false false) (mkDLock "job" 25 none false false)
      "ta" "tb" lockStoreE (by decide) (by decide) true⟩

/-- Claim C3: on a fault-free client, for every key, value and positive
TTL, set with compression followed by get with compression returns a
structurally equal value, and likewise for the uncompressed JSON path. -/
theorem set_then_get_roundtrip (c : Client) (k : String) (v : Value) (ttl : Nat)
    (hff : c.faults = []) (httl : 0 < ttl) :
    (∃ c', cacheSet c k v ttl true [] = (.ok (), c') ∧
      (cacheGet c' k true).1 = .ok v) ∧
    (∃ c', cacheSet c k v ttl false [] = (.ok (), c') ∧
      (cacheGet c' k false).1 = .ok v) := by
  have hnz : ttl ≠ 0 := by omega
  constructor
  · refine ⟨⟨updS c.st k (some ⟨.str (serializeFor true v), some ttl⟩), []⟩, ?_, ?_⟩
    · simp [cacheSet, rSetex, Client.pop, hff, hnz, setTags]
    · simp [cacheGet, rGet, Client.pop, serializeFor_isEmpty_false,
        deserializeData_serializeFor]
  · refine ⟨⟨updS c.st k (some ⟨.str (serializeFor false v), some ttl⟩), []⟩, ?_, ?_⟩
    · simp [cacheSet, rSetex, Client.pop, hff, hnz, setTags]
    · simp [cacheGet, rGet, Client.pop, serializeFor_isEmpty_false,
        jsonLoads_serializeFor]

/-- Witness for C3 at a concrete key, value and TTL. -/
theorem set_then_get_roundtrip_witness :
    clientE.faults = [] ∧ 0 < 7 ∧
      (∃ c', cacheSet clientE "k" (.int 5) 7 true [] = (.ok (), c') ∧
        (cacheGet c' "k" true).1 = .ok (.int 5)) :=
  ⟨by decide, by decide,
    (set_then_get_roundtrip clientE "k" (.int 5) 7 (by decide) (by decide)).1⟩

/-- Claim C5: get never raises — every call returns an ok result; a
store fault on the read round trip is absorbed as a miss, as is a decode
failure of either codec on a stored string; by contrast set propagates a
store fault on its write round trip as an error to the caller. -/
theorem get_degrades_to_miss_set_propagates :
    (∀ c k b, ∃ v c', cacheGet c k b = (.ok v, c')) ∧
    (∀ c k b, c.pop.1 = false → (cacheGet c k b).1 = .ok .null) ∧
    (∀ c k w t, c.pop.1 = true → c.st k = some ⟨.str w, t⟩ →
      deserializeData w = none → (cacheGet c k true).1 = .ok .null) ∧
    (∀ c k w t, c.pop.1 = true → c.st k = some ⟨.str w, t⟩ →
      jsonLoads w = none → (cacheGet c k false).1 = .ok .null) ∧
    (∀ c k v ttl compress tags, c.pop.1 = false →
      (cacheSet c k v ttl compress tags).1 = .error ()) := by
  refine ⟨fun c k b => cacheGet_isOk c k b, ?_, ?_, ?_, ?_⟩
  · intro c k b hp
    simp [cacheGet, rGet, hp]
  · intro c k w t hp hst hd
    have hst' : c.pop.2.st k = some ⟨.str w, t⟩ := by rw [pop_st]; exact hst
    by_cases he : w.isEmpty <;> simp [cacheGet, rGet, hp, hst', he, hd]
  · intro c k w t hp hst hd
    have hst' : c.pop.2.st k = some ⟨.str w, t⟩ := by rw [pop_st]; exact hst
    by_cases he : w.isEmpty <;> simp [cacheGet, rGet, hp, hst', he, hd]
  · intro c k v ttl compress tags hp
    simp [cacheSet, rSetex, hp]

/-- Witness for C5: the faulting conjuncts at a concrete faulting
client. -/
theorem get_degrades_to_miss_set_propagates_witness :
    clientFault.pop.1 = false ∧
      (cacheGet clientFault "k" true).1 = .ok .null ∧
      (cacheSet clientFault "k" .null 5 false []).1 = .error () :=
  ⟨by decide,
    get_degrades_to_miss_set_propagates.2.1 clientFault "k" true (by decide),
    get_degrades_to_miss_set_propagates.2.2.2.2 clientFault "k" .null 5 false []
      (by decide)⟩

/-- Claim C10: a stored value that decodes to None (a JSON null written
by set, undecodable compressed bytes, and every other miss-like state)
makes get return the same absent result as a missing key, so get_or_set
treats it as a miss: it invokes the factory (count 1), stores its result
under the key, and returns it — and when the factory returns None the
stored state is again miss-like, so the factory runs again on every
later call and a None result is never served from the cache. -/
theorem none_decode_treated_as_miss (c : Client) (k : String) (b : Bool)
    (f : Value) (ttl : Nat) (hff : c.faults = []) (httl : 0 < ttl)
    (hmiss : missLike c.st k b = true) :
    cacheGet c k b = (.ok .null, c) ∧
    (∃ c', getOrSet c k f ttl b [] = (.ok (f, 1), c') ∧
      c'.st k = some ⟨.str (serializeFor b f), some ttl⟩ ∧
      (f = .null → missLike c'.st k b = true)) := by
  obtain ⟨st0, fs⟩ := c
  have hfs : fs = [] := hff
  subst hfs
  have hnz : ttl ≠ 0 := by omega
  have hget := cacheGet_of_missLike st0 k b hmiss
  refine ⟨hget, ⟨updS st0 k (some ⟨.str (serializeFor b f), some ttl⟩), []⟩, ?_, ?_, ?_⟩
  · unfold getOrSet
    rw [hget]
    simp [Value.isNull, cacheSet, rSetex, Client.pop, hnz, setTags]
  · simp
  · intro hf
    subst hf
    simp [missLike, serializeFor_isEmpty_false, decodeFor_serializeFor]

/-- Claim C4: after two tagged writes under the same fresh tag with
distinct fresh keys (distinct from each other and from the tag-set key),
invalidating the tag deletes both member keys and then the tag set
itself, reports count 2, and a subsequent get on either key is a miss. -/
theorem tag_invalidation_removes_members_and_tag (c : Client) (t k1 k2 : String)
    (v1 v2 : Value) (ttl1 ttl2 : Nat) (hff : c.faults = [])
    (h1 : 0 < ttl1) (h2 : 0 < ttl2) (hk : k1 ≠ k2)
    (ht1 : k1 ≠ tagKey t) (ht2 : k2 ≠ tagKey t)
    (hft : c.st (tagKey t) = none) :
    ∃ c1 c2 c3,
      cacheSet c k1 v1 ttl1 false [t] = (.ok (), c1) ∧
      cacheSet c1 k2 v2 ttl2 false [t] = (.ok (), c2) ∧
      invalidateByTag c2 t = (.ok 2, c3) ∧
      c3.st (tagKey t) = none ∧
      cacheGet c3 k1 false = (.ok .null, c3) ∧
      cacheGet c3 k2 false = (.ok .null, c3) := by
  obtain ⟨st0, fs⟩ := c
  have hfs : fs = [] := hff
  subst hfs
  have hnz1 : ttl1 ≠ 0 := by omega
  have hnz2 : ttl2 ≠ 0 := by omega
  have hk' : k2 ≠ k1 := fun hEq => hk hEq.symm
  have ht1' : tagKey t ≠ k1 := fun hEq => ht1 hEq.symm
  have ht2' : tagKey t ≠ k2 := fun hEq => ht2 hEq.symm
  have hft0 : st0 (tagKey t) = none := hft
  have e1 := cacheSet_fresh_tag st0 k1 t v1 ttl1 false ht1 hnz1 hft0
  set S1 := updS (updS (updS st0 k1 (some ⟨.str (serializeFor false v1), some ttl1⟩))
    (tagKey t) (some ⟨.sset [k1], none⟩)) (tagKey t)
    (some ⟨.sset [k1], some ttl1⟩) with hS1
  have lS1 : S1 (tagKey t) = some ⟨.sset [k1], some ttl1⟩ := by simp [hS1]
  have hm2 : k2 ∉ [k1] := by simp [hk']
  have e2 := cacheSet_existing_tag S1 k2 t v2 ttl2 false [k1] (some ttl1)
    ht2 hnz2 lS1 hm2
  set S2 := updS (updS (updS S1 k2 (some ⟨.str (serializeFor false v2), some ttl2⟩))
    (tagKey t) (some ⟨.sset [k1, k2], some ttl1⟩)) (tagKey t)
    (some ⟨.sset [k1, k2], some ttl2⟩) with hS2
  have lS2t : S2 (tagKey t) = some ⟨.sset [k1, k2], some ttl2⟩ := by simp [hS2]
  have lS2k1 : S2 k1 = some ⟨.str (serializeFor false v1), some ttl1⟩ := by
    simp [hS2, hS1, updS, ht1, hk, ht1']
  have lS2k2 : S2 k2 = some ⟨.str (serializeFor false v2), some ttl2⟩ := by
    simp [hS2, updS, ht2]
  have e3 := invalidateByTag_two S2 t k1 k2 (some ttl2) _ _ lS2t lS2k1 lS2k2
    hk ht1 ht2
  set S3 := updS (updS (updS S2 k1 none) k2 none) (tagKey t) none with hS3
  have lS3k1 : S3 k1 = none := by simp [hS3, updS, ht1, hk]
  have lS3k2 : S3 k2 = none := by simp [hS3, updS, ht2]
  refine ⟨_, _, _, e1, e2, e3, by simp [hS3], ?_, ?_⟩
  · exact cacheGet_of_missLike S3 k1 false (missLike_of_none S3 k1 false lS3k1)
  · exact cacheGet_of_missLike S3 k2 false (missLike_of_none S3 k2 false lS3k2)

/-- Witness for C4 at concrete keys, values and TTLs. -/
theorem tag_invalidation_removes_members_and_tag_witness :
    clientE.faults = [] ∧ ("k1" : String) ≠ "k2" ∧
      ∃ c1 c2 c3,
        cacheSet clientE "k1" (.int 1) 9 false ["t"] = (.ok (), c1) ∧
        cacheSet c1 "k2" (.int 2) 9 false ["t"] = (.ok (), c2) ∧
        invalidateByTag c2 "t" = (.ok 2, c3) ∧
        c3.st (tagKey "t") = none ∧
        cacheGet c3 "k1" false = (.ok .null, c3) ∧
        cacheGet c3 "k2" false = (.ok .null, c3) :=
  ⟨by decide, by decide,
    tag_invalidation_removes_members_and_tag clientE "t" "k1" "k2" (.int 1) (.int 2)
      9 9 (by decide) (by decide) (by decide) (by decide) (by decide) (by decide)
      (by decide)⟩

/-- Counterexample to C8 as stated: a tagged write with entry TTL 10
against a tag set that still had 100 seconds of TTL left reduces the tag
set's remaining TTL from 100 to 10 — the expire call sets the TTL to the
entry TTL instead of only ever extending it. -/
theorem tagged_write_reduces_tag_ttl_counterexample :
    (clientC8.st (tagKey "t") = some ⟨.sset ["k0"], some 100⟩) ∧
    ((cacheSet clientC8 "k1" .null 10 false ["t"]).1 = .ok ()) ∧
    ((cacheSet clientC8 "k1" .null 10 false ["t"]).2.st (tagKey "t") =
      some ⟨.sset ["k0", "k1"], some 10⟩) ∧ 10 < 100 := by
  refine ⟨by decide, by rfl, by decide, by decide⟩

/-- Claim C8 (amended): every tagged set registers the key into each
listed tag's member set and sets each such tag set's TTL to exactly the
entry's ttl — which is at least the entry's ttl, but may be lower than
the tag set's previous remaining TTL. -/
theorem tagged_write_registers_and_sets_tag_ttl (c : Client) (k : String)
    (v : Value) (ttl : Nat) (cp : Bool) (tags : List String)
    (hff : c.faults = []) (httl : 0 < ttl)
    (hok : ∀ tg ∈ tags, k ≠ tagKey tg ∧ (c.st (tagKey tg) = none ∨
      ∃ ms tt, c.st (tagKey tg) = some ⟨.sset ms, tt⟩)) :
    ∃ c', cacheSet c k v ttl cp tags = (.ok (), c') ∧
      ∀ tg ∈ tags, ∃ ms, c'.st (tagKey tg) = some ⟨.sset ms, some ttl⟩ ∧ k ∈ ms := by
  obtain ⟨st0, fs⟩ := c
  have hfs : fs = [] := hff
  subst hfs
  have hnz : ttl ≠ 0 := by omega
  set st1 := updS st0 k (some ⟨.str (serializeFor cp v), some ttl⟩) with hst1
  have hok1 : ∀ tg ∈ tags, st1 (tagKey tg) = none ∨
      ∃ ms tt, st1 (tagKey tg) = some ⟨.sset ms, tt⟩ := by
    intro tg htg
    rw [hst1, updS_other _ _ _ _ (fun hEq => (hok tg htg).1 hEq.symm)]
    exact (hok tg htg).2
  obtain ⟨st', hrun, hP, _⟩ := setTags_registers k ttl hnz tags st1 hok1
  refine ⟨⟨st', []⟩, ?_, hP⟩
  unfold cacheSet
  have hsx : rSetex ⟨st0, []⟩ k ttl (serializeFor cp v) = (.ok (), ⟨st1, []⟩) := by
    simp [rSetex, Client.pop, hnz, hst1]
  rw [hsx]
  exact hrun

/-- Witness for C8 (amended) at a concrete pre-existing tag set. -/
theorem tagged_write_registers_and_sets_tag_ttl_witness :
    clientC8.faults = [] ∧ 0 < 10 ∧
      ∃ c', cacheSet clientC8 "k1" .null 10 false ["t"] = (.ok (), c') ∧
        ∀ tg ∈ ["t"], ∃ ms, c'.st (tagKey tg) = some ⟨.sset ms, some 10⟩ ∧ "k1" ∈ ms :=
  ⟨by decide, by decide,
    tagged_write_registers_and_sets_tag_ttl clientC8 "k1" .null 10 false ["t"]
      (by decide) (by decide)
      (fun tg htg => by
        simp only [List.mem_singleton] at htg
        subst htg
        exact ⟨by decide, Or.inr ⟨["k0"], some 100, by decide⟩⟩)⟩

/-- Counterexample to C7 as stated: with the store failure hitting the
EXPIRE that applies the TTL — after ZADD and RENAME succeeded — the
build fails and the temporary key is deleted, but the previously
published live index has already been replaced by the freshly built
one, so the old entries are no longer served. -/
theorem build_failure_after_rename_replaces_live_counterexample :
    clientC7.st "idx" = some ⟨.zset ["old*old"], none⟩ ∧
    (buildIndex clientC7 "idx" "idx:temp:9" ["ab"] 2 false (some 5)).1 =
      .error () ∧
    (buildIndex clientC7 "idx" "idx:temp:9" ["ab"] 2 false (some 5)).2.st
      "idx:temp:9" = none ∧
    (buildIndex clientC7 "idx" "idx:temp:9" ["ab"] 2 false (some 5)).2.st "idx" =
      some ⟨.zset ["ab*ab"], none⟩ := by
  refine ⟨by decide, by rfl, by decide, by decide⟩

/-- Claim C7 (amended): if the index build fails at any point under at
most one injected store failure, the temporary sorted-set key is deleted
before the error propagates, and the live index key either still holds
its previous value or — only possible when the failure hits the TTL
application after the rename — already holds the complete freshly built
index; a partial index is never visible. -/
theorem build_failure_cleans_temp_and_never_partial (c : Client)
    (indexKey tempKey : String) (suggestions : List String) (minPfxLen : Nat)
    (normalize : Bool) (ttl : Option Nat) (hcnt : cFalse c ≤ 1)
    (htemp : c.st tempKey = none) (hne : tempKey ≠ indexKey) :
    ∀ e c', buildIndex c indexKey tempKey suggestions minPfxLen normalize ttl =
        (.error e, c') →
      c'.st tempKey = none ∧
      (c'.st indexKey = c.st indexKey ∨
        c'.st indexKey = some ⟨.zset (zinsertAll
          (buildEntries suggestions minPfxLen normalize) []), none⟩) := by
  intro e c' heq
  have hne' : indexKey ≠ tempKey := fun h => hne h.symm
  unfold buildIndex at heq
  set E := buildEntries suggestions minPfxLen normalize with hE
  cases hEe : E.isEmpty
  case true =>
    have htt : c.pop.2.st tempKey = none := by rw [pop_st]; exact htemp
    obtain ⟨fs', hbc⟩ := buildCleanup_absent c.pop.2 tempKey () htt
    simp only [hEe] at heq
    simp at heq
    rw [rRename_absent c tempKey indexKey htemp] at heq
    simp at heq
    rw [hbc] at heq
    have hc2 : (⟨c.pop.2.st, fs'⟩ : Client) = c' := congrArg Prod.snd heq
    subst hc2
    exact ⟨by simpa [pop_st] using htemp, Or.inl (by simp [pop_st])⟩
  case false =>
    rcases hp1 : c.pop with ⟨b1, c1⟩
    have hst1 : c1.st = c.st := by
      have hps := pop_st c
      rw [hp1] at hps
      exact hps
    have htt1 : c1.st tempKey = none := by rw [hst1]; exact htemp
    cases b1
    case false =>
      have hrw : rZadd c tempKey E = (.error (), c1) := by simp [rZadd, hp1]
      obtain ⟨fs', hbc⟩ := buildCleanup_absent c1 tempKey () htt1
      simp only [hEe, hrw] at heq
      simp at heq
      rw [hbc] at heq
      have hc2 : (⟨c1.st, fs'⟩ : Client) = c' := congrArg Prod.snd heq
      subst hc2
      exact ⟨by simpa [hst1] using htemp, Or.inl (by simp [hst1])⟩
    case true =>
      have hrw : rZadd c tempKey E =
          (.ok (), ⟨updS c1.st tempKey (some ⟨.zset (zinsertAll E []), none⟩),
            c1.faults⟩) := by
        simp [rZadd, hp1, htt1]
      simp only [hEe, hrw] at heq
      simp at heq
      set stZ := updS c1.st tempKey (some ⟨.zset (zinsertAll E []), none⟩) with hstZ
      have hcf1 : cFalse c1 ≤ 1 := by
        have hle := cFalse_pop_le c
        rw [hp1] at hle
        exact le_trans hle hcnt
      rcases hp2 : (⟨stZ, c1.faults⟩ : Client).pop with ⟨b2, c2⟩
      have hst2 : c2.st = stZ := by
        have hps := pop_st ⟨stZ, c1.faults⟩
        rw [hp2] at hps
        exact hps
      cases b2
      case false =>
        have hrw2 : rRename (⟨stZ, c1.faults⟩ : Client) tempKey indexKey =
            (.error (), c2) := by simp [rRename, hp2]
        have hz2 : cFalse c2 = 0 := by
          have h3 := cFalse_pop_of_false (⟨stZ, c1.faults⟩ : Client) (by rw [hp2])
          rw [hp2] at h3
          have h4 : cFalse c2 + 1 = cFalse c1 := h3
          omega
        have htp : c2.st tempKey = some ⟨.zset (zinsertAll E []), none⟩ := by
          rw [hst2, hstZ, updS_same]
        obtain ⟨fs', hbc⟩ := buildCleanup_present c2 tempKey () _ htp hz2
        rw [hrw2] at heq
        simp at heq
        rw [hbc] at heq
        have hc2 : (⟨updS c2.st tempKey none, fs'⟩ : Client) = c' :=
          congrArg Prod.snd heq
        subst hc2
        refine ⟨by simp, Or.inl ?_⟩
        show updS c2.st tempKey none indexKey = c.st indexKey
        rw [updS_other _ _ _ _ hne', hst2, hstZ, updS_other _ _ _ _ hne', hst1]
      case true =>
        have htpZ : stZ tempKey = some ⟨.zset (zinsertAll E []), none⟩ := by
          rw [hstZ, updS_same]
        have hrw2 : rRename (⟨stZ, c1.faults⟩ : Client) tempKey indexKey =
            (.ok (), ⟨updS (updS c2.st tempKey none) indexKey
              (some ⟨.zset (zinsertAll E []), none⟩), c2.faults⟩) := by
          simp [rRename, hp2, hst2, htpZ]
        rw [hrw2] at heq
        simp at heq
        set stR := updS (updS c2.st tempKey none) indexKey
          (some ⟨.zset (zinsertAll E []), none⟩) with hstR
        cases ttl with
        | none => simp at heq
        | some tn =>
          cases tn with
          | zero => simp at heq
          | succ t =>
            simp at heq
            rcases hp3 : (⟨stR, c2.faults⟩ : Client).pop with ⟨b3, c3⟩
            have hst3 : c3.st = stR := by
              have hps := pop_st ⟨stR, c2.faults⟩
              rw [hp3] at hps
              exact hps
            cases b3
            case false =>
              have hrw3 : rExpire (⟨stR, c2.faults⟩ : Client) indexKey (t + 1) =
                  (.error (), c3) := by simp [rExpire, hp3]
              have htr : c3.st tempKey = none := by
                rw [hst3, hstR, updS_other _ _ _ _ hne, updS_same]
              obtain ⟨fs', hbc⟩ := buildCleanup_absent c3 tempKey () htr
              rw [hrw3] at heq
              simp at heq
              rw [hbc] at heq
              have hc2 : (⟨c3.st, fs'⟩ : Client) = c' := congrArg Prod.snd heq
              subst hc2
              refine ⟨by simpa using htr, Or.inr ?_⟩
              show c3.st indexKey = some ⟨.zset (zinsertAll E []), none⟩
              rw [hst3, hstR, updS_same]
            case true =>
              have hix : c3.st indexKey =
                  some ⟨.zset (zinsertAll E []), none⟩ := by
                rw [hst3, hstR, updS_same]
              have hrw3 : rExpire (⟨stR, c2.faults⟩ : Client) indexKey (t + 1) =
                  (.ok true, ⟨updS c3.st indexKey
                    (some ⟨.zset (zinsertAll E []), some (t + 1)⟩), c3.faults⟩) := by
                simp [rExpire, hp3, hix]
              rw [hrw3] at heq
              simp at heq

/-- Witness for C7 (amended) at the concrete failing-EXPIRE scenario. -/
theorem build_failure_cleans_temp_and_never_partial_witness :
    cFalse clientC7 ≤ 1 ∧
      ((buildIndex clientC7 "idx" "idx:temp:9" ["ab"] 2 false (some 5)).2.st
          "idx:temp:9" = none ∧
        ((buildIndex clientC7 "idx" "idx:temp:9" ["ab"] 2 false (some 5)).2.st
            "idx" = clientC7.st "idx" ∨
          (buildIndex clientC7 "idx" "idx:temp:9" ["ab"] 2 false (some 5)).2.st
              "idx" =
            some ⟨.zset (zinsertAll (buildEntries ["ab"] 2 false) []), none⟩)) :=
  ⟨by decide,
    build_failure_cleans_temp_and_never_partial clientC7 "idx" "idx:temp:9"
      ["ab"] 2 false (some 5) (by decide) (by decide) (by decide) ()
      (buildIndex clientC7 "idx" "idx:temp:9" ["ab"] 2 false (some 5)).2
      (by rfl)⟩

/-- Counterexample to C2 as stated: against the index built from the two
pizza suggestions with minimum slice length 2, the query with a trailing
space under default normalization is lowercased and stripped, so the
trailing whitespace is gone and the reply has mode full — not next_word
— with an empty next-word set. -/
theorem trailing_space_query_returns_full_mode_counterexample :
    (searchWithWordCompletion pizzaIndex "idx" "pizza " 10 true).1 =
      .ok ⟨"full", ["pizza diavola", "pizza margherita"], [], "pizza"⟩ ∧
    ("full" : String) ≠ "next_word" := by
  exact ⟨by rfl, by decide⟩

/-- Claim C2 (amended): under default normalization the trailing space
is stripped, so the query pizza-space returns mode full with both names
as suggestions and no next-word set; the next_word reply the claim
describes — next-word set containing margherita and diavola — is
produced only when normalization is disabled. -/
theorem trailing_space_query_modes :
    (buildIndex clientE "idx" "idx:temp:1" ["pizza margherita", "pizza diavola"]
      2 true none).1 = .ok 27 ∧
    (searchWithWordCompletion pizzaIndex "idx" "pizza " 10 true).1 =
      .ok ⟨"full", ["pizza diavola", "pizza margherita"], [], "pizza"⟩ ∧
    (searchWithWordCompletion pizzaIndex "idx" "pizza " 10 false).1 =
      .ok ⟨"next_word", ["pizza diavola", "pizza margherita"],
        ["diavola", "margherita"], "pizza"⟩ ∧
    "margherita" ∈ (["diavola", "margherita"] : List String) ∧
    "diavola" ∈ (["diavola", "margherita"] : List String) := by
  exact ⟨by rfl, by rfl, by rfl, by decide, by decide⟩

/-- Witness for C10 at a concrete store holding a JSON null. -/
theorem none_decode_treated_as_miss_witness :
    clientJsonNull.faults = [] ∧ 0 < 7 ∧
      missLike clientJsonNull.st "k" false = true ∧
      cacheGet clientJsonNull "k" false = (.ok .null, clientJsonNull) :=
  ⟨by decide, by decide, by decide,
    (none_decode_treated_as_miss clientJsonNull "k" false (.int 5) 7 (by decide)
      (by decide) (by decide)).1⟩

end EatCost
